import Mathlib

/-!
Shallow embedding of the Tic Tac Toe frontend logic
(src/tic_tac_toe_frontend/src/App.js) and proofs about it.

Board cells hold `Option Mark` (JS: `null`, `'X'`, `'O'`); a board is the
JS array `squares`, a list of cells indexed from 0. JS `squares[i]` on a
9-element array is total for `i < 9` and `undefined` (falsy, modelled as
`none` via `getD`) otherwise. `Math.floor(Math.random() * n)` for `n ≥ 1`
produces an integer in `[0, n)`; it is modelled by an arbitrary natural
number parameter taken modulo `n`, so theorems quantify over every
possible random outcome.
-/

/-- A player's mark: `'X'` or `'O'` in the JS source. -/
inductive Mark where
  | X : Mark
  | O : Mark
deriving DecidableEq, Repr

/-- The string the JS code renders for a mark (template interpolation). -/
def markStr : Mark → String
  | Mark.X => "X"
  | Mark.O => "O"

/-- A board: the JS `squares` array of 9 cells, each `null`/`'X'`/`'O'`. -/
def Board : Type := List (Option Mark)

instance : DecidableEq Board := by
  unfold Board
  infer_instance

instance : Repr Board := by
  unfold Board
  infer_instance

/-- Cell access `squares[i]`: out-of-range reads give `undefined`, which the
JS code only ever uses in falsy positions, so `none` is the faithful default. -/
def cell (squares : Board) (i : Nat) : Option Mark :=
  List.getD squares i none

/-- The constant `LINES` array of App.js: 3 rows, 3 columns, 2 diagonals. -/
def LINES : List (Nat × Nat × Nat) :=
  [(0, 1, 2), (3, 4, 5), (6, 7, 8),
   (0, 3, 6), (1, 4, 7), (2, 5, 8),
   (0, 4, 8), (2, 4, 6)]

/-- The loop-body test of `calculateWinner`:
`squares[a] && squares[a] === squares[b] && squares[a] === squares[c]`. -/
def lineComplete (squares : Board) (l : Nat × Nat × Nat) : Bool :=
  decide (cell squares l.1 ≠ none ∧ cell squares l.1 = cell squares l.2.1 ∧
    cell squares l.1 = cell squares l.2.2)

/-- Result record of `calculateWinner`: `{ winner, line }`. -/
structure WinResult where
  winner : Option Mark
  line : List Nat
deriving DecidableEq, Repr

/-- The source's `calculateWinner`: scan `LINES` in order, return the first
completed line and its mark, else `{ winner: null, line: [] }`. -/
def calculateWinner (squares : Board) : WinResult :=
  match LINES.find? (lineComplete squares) with
  | some (a, b, c) => { winner := cell squares a, line := [a, b, c] }
  | none => { winner := none, line := [] }

/-- Helper fusing the source's `squares.map((v, idx) => (v ? null : idx))`
followed by `.filter((v) => v !== null)`: collect, in index order starting
at `k`, the indices of the empty cells. -/
def emptyIndicesFrom : Nat → Board → List Nat
  | _, [] => []
  | k, (none :: rest) => k :: emptyIndicesFrom (k + 1) rest
  | k, (some _ :: rest) => emptyIndicesFrom (k + 1) rest

/-- The source's `emptyIndices`: indices of the empty cells, in index order. -/
def emptyIndices (squares : Board) : List Nat :=
  emptyIndicesFrom 0 squares

/-- The source's `tryMove` closure inside `computeAIMove`: place `mark` on a
copy of the board at `idx` and test whether that mark now wins. -/
def tryMove (squares : Board) (idx : Nat) (mark : Mark) : Bool :=
  decide ((calculateWinner (List.set squares idx (some mark))).winner = some mark)

/-- The source's `computeAIMove`. Tiers, first match returns:
win now, block the opponent, center, random empty corner, random empty
side, first available cell. The two `Nat` parameters `rc` and `rs` model
the `Math.random()` draws for the corner and side tiers. -/
def computeAIMove (squares : Board) (aiMark humanMark : Mark) (rc rs : Nat) : Option Nat :=
  let available := emptyIndices squares
  if available.isEmpty then none
  else
    match available.find? (fun idx => tryMove squares idx aiMark) with
    | some idx => some idx
    | none =>
      match available.find? (fun idx => tryMove squares idx humanMark) with
      | some idx => some idx
      | none =>
        if available.contains 4 then some 4
        else
          let corners := List.filter (fun c => available.contains c) [0, 2, 6, 8]
          if corners.length ≠ 0 then some (corners.getD (rc % corners.length) 0)
          else
            let sides := List.filter (fun s => available.contains s) [1, 3, 5, 7]
            if sides.length ≠ 0 then some (sides.getD (rs % sides.length) 0)
            else some (available.getD 0 0)

/-- Variant of `computeAIMove` whose final fallback line
(`return available[0]`) is replaced by `none`; used to express that the
fallback is unreachable on 9-cell boards. -/
def computeAIMoveNoFallback (squares : Board) (aiMark humanMark : Mark) (rc rs : Nat) :
    Option Nat :=
  let available := emptyIndices squares
  if available.isEmpty then none
  else
    match available.find? (fun idx => tryMove squares idx aiMark) with
    | some idx => some idx
    | none =>
      match available.find? (fun idx => tryMove squares idx humanMark) with
      | some idx => some idx
      | none =>
        if available.contains 4 then some 4
        else
          let corners := List.filter (fun c => available.contains c) [0, 2, 6, 8]
          if corners.length ≠ 0 then some (corners.getD (rc % corners.length) 0)
          else
            let sides := List.filter (fun s => available.contains s) [1, 3, 5, 7]
            if sides.length ≠ 0 then some (sides.getD (rs % sides.length) 0)
            else none

/-- Game mode: `'HUMAN_HUMAN'` or `'HUMAN_AI'` in the JS source. -/
inductive Mode where
  | HUMAN_HUMAN : Mode
  | HUMAN_AI : Mode
deriving DecidableEq, Repr

/-- The `scores` state object `{ X, O, draws }`. -/
structure Scores where
  X : Nat
  O : Nat
  draws : Nat
deriving DecidableEq, Repr

/-- The score entry `s[mark]` for a mark (computed-key access in the JS). -/
def scoreOf (sc : Scores) : Mark → Nat
  | Mark.X => sc.X
  | Mark.O => sc.O

/-- The React state of the `App` component that the game logic touches:
`mode`, `board`, `xIsNext`, `scores`, `statusMessage`, `gameActive`. -/
structure Session where
  mode : Mode
  board : Board
  xIsNext : Bool
  scores : Scores
  statusMessage : String
  gameActive : Bool
deriving DecidableEq, Repr

/-- The derived `currentPlayer`: `xIsNext ? 'X' : 'O'`. -/
def currentPlayer (s : Session) : Mark :=
  if s.xIsNext then Mark.X else Mark.O

/-- The source's `[winner]: s[winner] + 1` update inside the status effect. -/
def addWin (sc : Scores) : Mark → Scores
  | Mark.X => { sc with X := sc.X + 1 }
  | Mark.O => { sc with O := sc.O + 1 }

/-- The status-determination effect of `App` (the `useEffect` keyed on
`[winner, movesLeft, currentPlayer]`): if there is a winner, announce it,
deactivate the round and bump that mark's score; else if no move is left,
announce a draw, deactivate and bump `draws`; else announce the turn. -/
def statusEffect (s : Session) : Session :=
  match (calculateWinner s.board).winner with
  | some w =>
    { s with statusMessage := "Winner: " ++ markStr w, gameActive := false,
             scores := addWin s.scores w }
  | none =>
    if (emptyIndices s.board).length = 0 then
      { s with statusMessage := "Draw!", gameActive := false,
               scores := { s.scores with draws := s.scores.draws + 1 } }
    else
      { s with statusMessage := "Turn: " ++ markStr (currentPlayer s) }

/-- The derived `canPlay` memo: `gameActive && !winner`. -/
def canPlay (s : Session) : Bool :=
  s.gameActive && decide ((calculateWinner s.board).winner = none)

/-- The guard conditions of `handleClick(i)`: not rejected when the round is
playable, the cell is free, and it is not the AI's turn in `HUMAN_AI` mode. -/
def clickAccepted (s : Session) (i : Nat) : Bool :=
  canPlay s && decide (cell s.board i = none) &&
    !(decide (s.mode = Mode.HUMAN_AI) && !s.xIsNext)

/-- The source's `handleClick(i)`: place the current player's mark and flip
the turn, or reject as a silent no-op. -/
def handleClick (s : Session) (i : Nat) : Session :=
  if clickAccepted s i then
    { s with board := List.set s.board i (some (currentPlayer s)),
             xIsNext := !s.xIsNext }
  else s

/-- One accepted-or-rejected click together with the status effect React
runs after the resulting state change (the effect's dependencies `winner`,
`movesLeft`, `currentPlayer` all stem from `board`/`xIsNext`, which an
accepted click changes; a rejected click changes no state, so no effect
runs and the session is returned unchanged). -/
def placeMark (s : Session) (i : Nat) : Session :=
  if clickAccepted s i then statusEffect (handleClick s i) else s

/-- The AI mark constant of the source: `const aiMark = 'O'`. -/
def aiMark : Mark := Mark.O

/-- Body of the AI `setTimeout` callback together with the guards of the AI
effect that schedules it (`!gameActive || winner` returns early; the timer
exists only in `HUMAN_AI` mode on O's turn), followed by the status effect
on the state change it makes. -/
def aiStep (s : Session) (rc rs : Nat) : Session :=
  if !s.gameActive || decide ((calculateWinner s.board).winner ≠ none) then s
  else if decide (s.mode = Mode.HUMAN_AI) && !s.xIsNext then
    match computeAIMove s.board aiMark Mark.X rc rs with
    | some idx =>
      if cell s.board idx = none then
        statusEffect { s with board := List.set s.board idx (some aiMark), xIsNext := true }
      else s
    | none => s
  else s

/-- The source's `restartGame(hard)`: clear the board, X to move, round
active again; a hard restart also zeroes the scores. -/
def restartGame (hard : Bool) (s : Session) : Session :=
  let s' := { s with board := List.replicate 9 (none : Option Mark),
                     xIsNext := true, gameActive := true,
                     statusMessage := "New round. Turn: X" }
  if hard then { s' with scores := { X := 0, O := 0, draws := 0 } } else s'

/-- The source's `handleModeChange(newMode)`: set the mode, then restart the
round (scores untouched). -/
def handleModeChange (newMode : Mode) (s : Session) : Session :=
  restartGame false { s with mode := newMode }

/-- The initial `App` state: empty board, X to move, zero scores, active. -/
def initSession : Session :=
  { mode := Mode.HUMAN_HUMAN,
    board := List.replicate 9 (none : Option Mark),
    xIsNext := true,
    scores := { X := 0, O := 0, draws := 0 },
    statusMessage := "Choose a mode and start playing!",
    gameActive := true }

/-- Dependency array of the AI-move effect, `[mode, xIsNext, board, aiMark,
winner, gameActive]`: `aiMark` is a constant and `winner` is computed from
`board`, so the changing dependencies are these four. React re-runs the
effect (cancelling the previous timer via its cleanup) exactly when this
tuple changes between renders. -/
def effectDeps (s : Session) : Mode × Bool × Board × Bool :=
  (s.mode, s.xIsNext, s.board, s.gameActive)

/-- Guard under which the AI effect arms a `setTimeout`: the round is
active with no winner, the mode is `HUMAN_AI` and it is O's turn. -/
def shouldSchedule (s : Session) : Bool :=
  s.gameActive && decide ((calculateWinner s.board).winner = none) &&
    (decide (s.mode = Mode.HUMAN_AI) && !s.xIsNext)

/-- A session together with whether an AI `setTimeout` is currently armed. -/
structure AIState where
  session : Session
  pending : Bool
deriving DecidableEq, Repr

/-- Effect bookkeeping across one state change: if the dependency tuple is
unchanged the effect does not re-run and the old timer stays as it was;
otherwise the cleanup cancels the old timer (`clearTimeout`) and the
re-run arms a new one exactly when `shouldSchedule` holds. -/
def effectUpdate (old : Session) (oldPending : Bool) (new : Session) : Bool :=
  if effectDeps new = effectDeps old then oldPending else shouldSchedule new

/-- Transition to a new session with the AI effect's bookkeeping applied. -/
def withEffect (st : AIState) (new : Session) : AIState :=
  { session := new, pending := effectUpdate st.session st.pending new }

/-- A user click on cell `i`, with effects. -/
def stepPlace (i : Nat) (st : AIState) : AIState :=
  withEffect st (placeMark st.session i)

/-- The armed timer fires: run the `setTimeout` callback (`aiStep`); the
consumed timer is gone, and the effect re-runs on the state change it
caused, possibly arming a fresh one. -/
def fireTimer (st : AIState) (rc rs : Nat) : AIState :=
  if st.pending then
    withEffect { st with pending := false } (aiStep st.session rc rs)
  else st

/-- A restart-round (`hard = false`) or new-game (`hard = true`) click,
with effects. -/
def stepRestart (hard : Bool) (st : AIState) : AIState :=
  withEffect st (restartGame hard st.session)

/-- A mode-change click, with effects. -/
def stepModeChange (m : Mode) (st : AIState) : AIState :=
  withEffect st (handleModeChange m st.session)

/-- The state after mount: the AI effect has run once on `initSession`. -/
def initAIState : AIState :=
  { session := initSession, pending := shouldSchedule initSession }

/-- States of the controller reachable from application start through
clicks, timer firings, restarts, new games and mode changes. -/
inductive ReachableA : AIState → Prop where
  | init : ReachableA initAIState
  | place (st : AIState) (i : Nat) : ReachableA st → ReachableA (stepPlace i st)
  | fire (st : AIState) (rc rs : Nat) : ReachableA st → ReachableA (fireTimer st rc rs)
  | restart (st : AIState) (hard : Bool) : ReachableA st → ReachableA (stepRestart hard st)
  | modeChange (st : AIState) (m : Mode) : ReachableA st → ReachableA (stepModeChange m st)

/-- Round-liveness invariant claimed by the spec: the round is inactive
exactly when a winner exists or the board is full. -/
def roundInvariant (s : Session) : Prop :=
  s.gameActive = false ↔
    ((calculateWinner s.board).winner ≠ none ∨ emptyIndices s.board = [])

/-- Concrete board from the spec's worked example: `[X,X,_, O,O,_, _,_,_]`. -/
def exampleBoard : Board :=
  [some Mark.X, some Mark.X, none, some Mark.O, some Mark.O, none, none, none, none]

/-- Concrete board whose top row is three `X`s (a won position). -/
def wonBoard : Board :=
  [some Mark.X, some Mark.X, some Mark.X, some Mark.O, some Mark.O, none, none, none, none]

/-- Concrete full board with no three-in-a-row (a drawn position):
`[X,O,X, X,O,O, O,X,X]`. -/
def drawnBoard : Board :=
  [some Mark.X, some Mark.O, some Mark.X,
   some Mark.X, some Mark.O, some Mark.O,
   some Mark.O, some Mark.X, some Mark.X]

/-- Session one X-move away from the spec's draw example: drawn board except
cell 8 still empty, X to move, human-vs-human, mid-round. -/
def preDrawSession : Session :=
  { mode := Mode.HUMAN_HUMAN,
    board := [some Mark.X, some Mark.O, some Mark.X,
              some Mark.X, some Mark.O, some Mark.O,
              some Mark.O, some Mark.X, none],
    xIsNext := true,
    scores := { X := 1, O := 2, draws := 3 },
    statusMessage := "Turn: X",
    gameActive := true }

/-- Concrete board from the spec's center-tier example: X played cell 0,
everything else empty. -/
def openingBoard : Board :=
  [some Mark.X, none, none, none, none, none, none, none, none]

/-- Membership in `emptyIndicesFrom k l`: exactly the indices `i ≥ k` such
that the cell at offset `i - k` exists and is empty. -/
lemma mem_emptyIndicesFrom (l : List (Option Mark)) :
    ∀ (k i : Nat), i ∈ emptyIndicesFrom k l ↔
      k ≤ i ∧ i - k < l.length ∧ l.getD (i - k) none = none := by
  induction l with
  | nil =>
    intro k i
    simp [emptyIndicesFrom]
  | cons a rest ih =>
    intro k i
    cases a with
    | none =>
      simp only [emptyIndicesFrom, List.mem_cons, ih (k + 1)]
      constructor
      · rintro (rfl | ⟨h1, h2, h3⟩)
        · exact ⟨le_refl _, by simp, by simp⟩
        · refine ⟨by omega, by simp only [List.length_cons]; omega, ?_⟩
          have hik : i - k = (i - (k + 1)) + 1 := by omega
          rw [hik]
          simpa using h3
      · rintro ⟨h1, h2, h3⟩
        by_cases hik : i = k
        · exact Or.inl hik
        · right
          have hik' : i - k = (i - (k + 1)) + 1 := by omega
          rw [hik'] at h3
          refine ⟨by omega, ?_, by simpa using h3⟩
          simp only [List.length_cons] at h2
          omega
    | some m =>
      simp only [emptyIndicesFrom, ih (k + 1)]
      constructor
      · rintro ⟨h1, h2, h3⟩
        have hik : i - k = (i - (k + 1)) + 1 := by omega
        refine ⟨by omega, by simp only [List.length_cons]; omega, ?_⟩
        rw [hik]
        simpa using h3
      · rintro ⟨h1, h2, h3⟩
        by_cases hik : i = k
        · subst hik
          simp at h3
        · have hik' : i - k = (i - (k + 1)) + 1 := by omega
          rw [hik'] at h3
          refine ⟨by omega, ?_, by simpa using h3⟩
          simp only [List.length_cons] at h2
          omega

/-- Membership in `emptyIndices`: the in-range indices of empty cells. -/
lemma mem_emptyIndices (squares : Board) (i : Nat) :
    i ∈ emptyIndices squares ↔ i < List.length squares ∧ cell squares i = none := by
  have h := mem_emptyIndicesFrom squares 0 i
  simpa [emptyIndices, cell] using h

/-- The `emptyIndices` list is empty exactly when every cell is occupied. -/
lemma emptyIndices_eq_nil_iff (squares : Board) :
    emptyIndices squares = [] ↔ ∀ i, i < List.length squares → cell squares i ≠ none := by
  rw [List.eq_nil_iff_forall_not_mem]
  constructor
  · intro h i hi hcell
    exact h i ((mem_emptyIndices squares i).2 ⟨hi, hcell⟩)
  · intro h i hi
    rcases (mem_emptyIndices squares i).1 hi with ⟨h1, h2⟩
    exact h i h1 h2

/-- The indices in `emptyIndicesFrom` are listed in strictly increasing
order. -/
lemma emptyIndicesFrom_pairwise (l : List (Option Mark)) :
    ∀ k : Nat, List.Pairwise (fun a b => a < b) (emptyIndicesFrom k l) := by
  induction l with
  | nil =>
    intro k
    simp [emptyIndicesFrom]
  | cons a rest ih =>
    intro k
    cases a with
    | none =>
      simp only [emptyIndicesFrom]
      refine List.Pairwise.cons ?_ (ih (k + 1))
      intro b hb
      have := (mem_emptyIndicesFrom rest (k + 1) b).1 hb
      omega
    | some m =>
      simpa [emptyIndicesFrom] using ih (k + 1)

/-- The `emptyIndices` list is strictly increasing: its elements appear in
index order. -/
lemma emptyIndices_pairwise (squares : Board) :
    List.Pairwise (fun a b => a < b) (emptyIndices squares) :=
  emptyIndicesFrom_pairwise squares 0

/-- Reading a non-empty list at a position reduced modulo its length stays
inside the list. -/
lemma getD_mod_mem (l : List Nat) (h : l.length ≠ 0) (n : Nat) :
    l.getD (n % l.length) 0 ∈ l := by
  have hlt : n % l.length < l.length := Nat.mod_lt _ (Nat.pos_of_ne_zero h)
  rw [List.getD_eq_getElem l 0 hlt]
  exact List.getElem_mem hlt

/-- Whatever cell `computeAIMove` returns was one of the empty cells. -/
lemma computeAIMove_mem (squares : Board) (ai hu : Mark) (rc rs : Nat) (j : Nat)
    (h : computeAIMove squares ai hu rc rs = some j) : j ∈ emptyIndices squares := by
  unfold computeAIMove at h
  by_cases he : (emptyIndices squares).isEmpty
  · rw [if_pos he] at h
    exact absurd h (by simp)
  · rw [if_neg he] at h
    cases hf1 : (emptyIndices squares).find? (fun idx => tryMove squares idx ai) with
    | some idx =>
      rw [hf1] at h
      cases h
      exact List.mem_of_find?_eq_some hf1
    | none =>
      rw [hf1] at h
      cases hf2 : (emptyIndices squares).find? (fun idx => tryMove squares idx hu) with
      | some idx =>
        rw [hf2] at h
        cases h
        exact List.mem_of_find?_eq_some hf2
      | none =>
        rw [hf2] at h
        by_cases hc4 : (emptyIndices squares).contains 4
        · rw [if_pos hc4] at h
          cases h
          simpa using hc4
        · rw [if_neg hc4] at h
          by_cases hcl :
              (List.filter (fun c => (emptyIndices squares).contains c) [0, 2, 6, 8]).length ≠ 0
          · rw [if_pos hcl] at h
            cases h
            have hmem := getD_mod_mem _ hcl rc
            have := (List.mem_filter.mp hmem).2
            simpa using this
          · rw [if_neg hcl] at h
            by_cases hsl :
                (List.filter (fun s => (emptyIndices squares).contains s) [1, 3, 5, 7]).length ≠ 0
            · rw [if_pos hsl] at h
              cases h
              have hmem := getD_mod_mem _ hsl rs
              have := (List.mem_filter.mp hmem).2
              simpa using this
            · rw [if_neg hsl] at h
              cases h
              have hne : emptyIndices squares ≠ [] := by
                intro hnil
                exact he (by simp [hnil])
              have hpos : 0 < (emptyIndices squares).length := by
                cases hx : emptyIndices squares with
                | nil => exact absurd hx hne
                | cons a t => simp
              rw [List.getD_eq_getElem _ 0 hpos]
              exact List.getElem_mem hpos

/-- The advisor returns `none` exactly on boards with no empty cell. -/
lemma computeAIMove_eq_none_iff (squares : Board) (ai hu : Mark) (rc rs : Nat) :
    computeAIMove squares ai hu rc rs = none ↔ emptyIndices squares = [] := by
  constructor
  · intro h
    by_contra hne
    have he : ¬ (emptyIndices squares).isEmpty := by
      simpa [List.isEmpty_iff] using hne
    unfold computeAIMove at h
    rw [if_neg he] at h
    cases hf1 : (emptyIndices squares).find? (fun idx => tryMove squares idx ai) with
    | some idx => rw [hf1] at h; exact absurd h (by simp)
    | none =>
      rw [hf1] at h
      cases hf2 : (emptyIndices squares).find? (fun idx => tryMove squares idx hu) with
      | some idx => rw [hf2] at h; exact absurd h (by simp)
      | none =>
        rw [hf2] at h
        by_cases hc4 : (emptyIndices squares).contains 4
        · rw [if_pos hc4] at h; exact absurd h (by simp)
        · rw [if_neg hc4] at h
          by_cases hcl :
              (List.filter (fun c => (emptyIndices squares).contains c) [0, 2, 6, 8]).length ≠ 0
          · rw [if_pos hcl] at h; exact absurd h (by simp)
          · rw [if_neg hcl] at h
            by_cases hsl :
                (List.filter (fun s => (emptyIndices squares).contains s) [1, 3, 5, 7]).length ≠ 0
            · rw [if_pos hsl] at h; exact absurd h (by simp)
            · rw [if_neg hsl] at h; exact absurd h (by simp)
  · intro h
    unfold computeAIMove
    rw [if_pos (by simp [h])]

/-- C1: on every 9-cell board, `computeAIMove` returns `none` iff the board
has no empty cell, and any returned cell index is empty on the input board. -/
theorem computeAIMove_none_iff_and_returns_empty (squares : Board) (ai hu : Mark)
    (rc rs : Nat) (hlen : List.length squares = 9) :
    (computeAIMove squares ai hu rc rs = none ↔ ∀ i, i < 9 → cell squares i ≠ none) ∧
    (∀ j, computeAIMove squares ai hu rc rs = some j → cell squares j = none) := by
  constructor
  · rw [computeAIMove_eq_none_iff, emptyIndices_eq_nil_iff, hlen]
  · intro j hj
    exact ((mem_emptyIndices squares j).1 (computeAIMove_mem squares ai hu rc rs j hj)).2

/-- Witness for C1 at the spec's example board. -/
theorem computeAIMove_none_iff_and_returns_empty_witness :
    List.length exampleBoard = 9 ∧
    ((computeAIMove exampleBoard Mark.O Mark.X 0 0 = none ↔
        ∀ i, i < 9 → cell exampleBoard i ≠ none) ∧
      (∀ j, computeAIMove exampleBoard Mark.O Mark.X 0 0 = some j →
        cell exampleBoard j = none)) :=
  ⟨by decide,
    computeAIMove_none_iff_and_returns_empty exampleBoard Mark.O Mark.X 0 0 (by decide)⟩

/-- C2: when some empty cell completes a line for the advisor's mark,
`computeAIMove` returns such a winning cell; when no winning cell exists but
some empty cell would complete a line for the opponent, it returns such a
blocking cell; and on the board `[X,X,_, O,O,_, _,_,_]` with advisor `O` and
opponent `X` it returns index 5 for every random draw. -/
theorem computeAIMove_win_then_block :
    (∀ (squares : Board) (ai hu : Mark) (rc rs : Nat),
      (∃ i ∈ emptyIndices squares,
        (calculateWinner (List.set squares i (some ai))).winner = some ai) →
      ∃ j, computeAIMove squares ai hu rc rs = some j ∧ j ∈ emptyIndices squares ∧
        (calculateWinner (List.set squares j (some ai))).winner = some ai) ∧
    (∀ (squares : Board) (ai hu : Mark) (rc rs : Nat),
      (∀ i ∈ emptyIndices squares,
        (calculateWinner (List.set squares i (some ai))).winner ≠ some ai) →
      (∃ i ∈ emptyIndices squares,
        (calculateWinner (List.set squares i (some hu))).winner = some hu) →
      ∃ j, computeAIMove squares ai hu rc rs = some j ∧ j ∈ emptyIndices squares ∧
        (calculateWinner (List.set squares j (some hu))).winner = some hu) ∧
    (∀ rc rs : Nat, computeAIMove exampleBoard Mark.O Mark.X rc rs = some 5) := by
  refine ⟨?_, ?_, ?_⟩
  · intro squares ai hu rc rs hex
    have hsome : ((emptyIndices squares).find? (fun idx => tryMove squares idx ai)).isSome := by
      rw [List.find?_isSome]
      rcases hex with ⟨i, hi, hwin⟩
      exact ⟨i, hi, by simp [tryMove, hwin]⟩
    rcases Option.isSome_iff_exists.mp hsome with ⟨j, hj⟩
    refine ⟨j, ?_, List.mem_of_find?_eq_some hj, ?_⟩
    · have hne : ¬ (emptyIndices squares).isEmpty := by
        rcases hex with ⟨i, hi, _⟩
        simp only [List.isEmpty_iff]
        intro hnil
        rw [hnil] at hi
        simp at hi
      unfold computeAIMove
      rw [if_neg hne, hj]
    · have := List.find?_some hj
      simpa [tryMove] using this
  · intro squares ai hu rc rs hnone hex
    have hf1 : (emptyIndices squares).find? (fun idx => tryMove squares idx ai) = none := by
      rw [List.find?_eq_none]
      intro i hi
      simp [tryMove]
      exact hnone i hi
    have hsome : ((emptyIndices squares).find? (fun idx => tryMove squares idx hu)).isSome := by
      rw [List.find?_isSome]
      rcases hex with ⟨i, hi, hwin⟩
      exact ⟨i, hi, by simp [tryMove, hwin]⟩
    rcases Option.isSome_iff_exists.mp hsome with ⟨j, hj⟩
    refine ⟨j, ?_, List.mem_of_find?_eq_some hj, ?_⟩
    · have hne : ¬ (emptyIndices squares).isEmpty := by
        rcases hex with ⟨i, hi, _⟩
        simp only [List.isEmpty_iff]
        intro hnil
        rw [hnil] at hi
        simp at hi
      unfold computeAIMove
      rw [if_neg hne, hf1, hj]
    · have := List.find?_some hj
      simpa [tryMove] using this
  · intro rc rs
    rfl

/-- Witness for C2's first tier at the spec's example board. -/
theorem computeAIMove_win_then_block_witness :
    (∃ i ∈ emptyIndices exampleBoard,
      (calculateWinner (List.set exampleBoard i (some Mark.O))).winner = some Mark.O) ∧
    (∃ j, computeAIMove exampleBoard Mark.O Mark.X 1 2 = some j ∧
      j ∈ emptyIndices exampleBoard ∧
      (calculateWinner (List.set exampleBoard j (some Mark.O))).winner = some Mark.O) :=
  ⟨by decide, computeAIMove_win_then_block.1 exampleBoard Mark.O Mark.X 1 2 (by decide)⟩

/-- C4: `calculateWinner` reports a winner iff one of the 8 fixed lines is
completed; in that case the reported line is the first completed line in
the fixed scan order and the reported mark occupies all three of its cells;
otherwise both fields are empty — in particular a single line (at most one)
is ever reported. -/
theorem calculateWinner_first_complete_line (squares : Board) :
    ((calculateWinner squares).winner ≠ none ↔
      ∃ l ∈ LINES, lineComplete squares l = true) ∧
    (∀ w, (calculateWinner squares).winner = some w →
      ∃ a b c, (calculateWinner squares).line = [a, b, c] ∧
        (∃ pre post, LINES = pre ++ (a, b, c) :: post ∧
          ∀ l ∈ pre, lineComplete squares l = false) ∧
        cell squares a = some w ∧ cell squares b = some w ∧ cell squares c = some w) ∧
    ((calculateWinner squares).winner = none → (calculateWinner squares).line = []) := by
  cases hf : LINES.find? (lineComplete squares) with
  | none =>
    have hwin : calculateWinner squares = { winner := none, line := [] } := by
      unfold calculateWinner
      rw [hf]
    refine ⟨?_, ?_, ?_⟩
    · rw [hwin]
      simp only [ne_eq, not_true_eq_false, false_iff]
      rintro ⟨l, hl, hcomp⟩
      have := List.find?_eq_none.mp hf l hl
      exact this hcomp
    · intro w hw
      rw [hwin] at hw
      exact absurd hw (by simp)
    · intro _
      rw [hwin]
  | some l =>
    rcases l with ⟨a, b, c⟩
    have hwin : calculateWinner squares =
        { winner := cell squares a, line := [a, b, c] } := by
      unfold calculateWinner
      rw [hf]
    have hcomp : lineComplete squares (a, b, c) = true := List.find?_some hf
    have hcells : cell squares a ≠ none ∧ cell squares a = cell squares b ∧
        cell squares a = cell squares c := by
      simpa [lineComplete] using hcomp
    rcases Option.ne_none_iff_exists'.mp hcells.1 with ⟨w, hwcell⟩
    refine ⟨?_, ?_, ?_⟩
    · rw [hwin]
      simp only [ne_eq, hcells.1, not_false_eq_true, true_iff]
      exact ⟨(a, b, c), List.mem_of_find?_eq_some hf, hcomp⟩
    · intro w' hw'
      rw [hwin] at hw'
      refine ⟨a, b, c, by rw [hwin], ?_, ?_, ?_, ?_⟩
      · rcases List.find?_eq_some.mp hf with ⟨_, pre, post, hsplit, hpre⟩
        refine ⟨pre, post, hsplit, ?_⟩
        intro l hl
        have := hpre l hl
        simpa using this
      · exact hw'
      · rw [← hcells.2.1]
        exact hw'
      · rw [← hcells.2.2]
        exact hw'
    · intro hnone
      rw [hwin] at hnone
      exact absurd hnone hcells.1

/-- Witness for C4 at a board whose top row is won by `X`. -/
theorem calculateWinner_first_complete_line_witness :
    ((calculateWinner wonBoard).winner ≠ none ↔
      ∃ l ∈ LINES, lineComplete wonBoard l = true) ∧
    (∀ w, (calculateWinner wonBoard).winner = some w →
      ∃ a b c, (calculateWinner wonBoard).line = [a, b, c] ∧
        (∃ pre post, LINES = pre ++ (a, b, c) :: post ∧
          ∀ l ∈ pre, lineComplete wonBoard l = false) ∧
        cell wonBoard a = some w ∧ cell wonBoard b = some w ∧ cell wonBoard c = some w) ∧
    ((calculateWinner wonBoard).winner = none → (calculateWinner wonBoard).line = []) :=
  calculateWinner_first_complete_line wonBoard

/-- A list with a member has non-zero length. -/
lemma length_ne_zero_of_mem {α : Type} {a : α} {l : List α} (h : a ∈ l) :
    l.length ≠ 0 := by
  intro h0
  rw [List.length_eq_zero] at h0
  subst h0
  simp at h

/-- On a 9-cell board with at least one empty cell, the center, the corners
and the sides together cover every empty cell, so one of tiers 3-5 of
`computeAIMove` finds a candidate. -/
lemma tiers_cover (squares : Board) (hlen : List.length squares = 9)
    (hne : emptyIndices squares ≠ []) :
    (emptyIndices squares).contains 4 = true ∨
    (List.filter (fun c => (emptyIndices squares).contains c) [0, 2, 6, 8]).length ≠ 0 ∨
    (List.filter (fun s => (emptyIndices squares).contains s) [1, 3, 5, 7]).length ≠ 0 := by
  obtain ⟨i, hi⟩ : ∃ i, i ∈ emptyIndices squares :=
    List.exists_mem_of_ne_nil _ hne
  have hi9 : i < 9 := by
    have := ((mem_emptyIndices squares i).1 hi).1
    omega
  have hcontains : (emptyIndices squares).contains i = true := by
    simpa using hi
  have hsplit : i = 4 ∨ (i = 0 ∨ i = 2 ∨ i = 6 ∨ i = 8) ∨
      (i = 1 ∨ i = 3 ∨ i = 5 ∨ i = 7) := by omega
  rcases hsplit with rfl | hcor | hsid
  · exact Or.inl hcontains
  · refine Or.inr (Or.inl (length_ne_zero_of_mem (a := i) ?_))
    refine List.mem_filter.mpr ⟨?_, hcontains⟩
    rcases hcor with rfl | rfl | rfl | rfl <;> simp
  · refine Or.inr (Or.inr (length_ne_zero_of_mem (a := i) ?_))
    refine List.mem_filter.mpr ⟨?_, hcontains⟩
    rcases hsid with rfl | rfl | rfl | rfl <;> simp

/-- C10: on every 9-cell board with an empty cell, `computeAIMove` agrees
with the variant whose final `available[0]` fallback is removed, and that
variant still returns a move — so the fallback line is unreachable. -/
theorem computeAIMove_fallback_unreachable (squares : Board) (ai hu : Mark) (rc rs : Nat)
    (hlen : List.length squares = 9) (hne : emptyIndices squares ≠ []) :
    computeAIMove squares ai hu rc rs = computeAIMoveNoFallback squares ai hu rc rs ∧
    computeAIMoveNoFallback squares ai hu rc rs ≠ none := by
  have he : ¬ (emptyIndices squares).isEmpty := by
    simpa [List.isEmpty_iff] using hne
  unfold computeAIMove computeAIMoveNoFallback
  rw [if_neg he, if_neg he]
  cases hf1 : (emptyIndices squares).find? (fun idx => tryMove squares idx ai) with
  | some idx => exact ⟨rfl, by simp⟩
  | none =>
    cases hf2 : (emptyIndices squares).find? (fun idx => tryMove squares idx hu) with
    | some idx => exact ⟨rfl, by simp⟩
    | none =>
      by_cases hc4 : (emptyIndices squares).contains 4
      · rw [if_pos hc4, if_pos hc4]
        exact ⟨rfl, by simp⟩
      · rw [if_neg hc4, if_neg hc4]
        show (let corners := List.filter (fun c => (emptyIndices squares).contains c) [0, 2, 6, 8]
          if corners.length ≠ 0 then some (corners.getD (rc % corners.length) 0)
          else
            let sides := List.filter (fun s => (emptyIndices squares).contains s) [1, 3, 5, 7]
            if sides.length ≠ 0 then some (sides.getD (rs % sides.length) 0)
            else some ((emptyIndices squares).getD 0 0)) =
          (let corners := List.filter (fun c => (emptyIndices squares).contains c) [0, 2, 6, 8]
          if corners.length ≠ 0 then some (corners.getD (rc % corners.length) 0)
          else
            let sides := List.filter (fun s => (emptyIndices squares).contains s) [1, 3, 5, 7]
            if sides.length ≠ 0 then some (sides.getD (rs % sides.length) 0)
            else none) ∧
          (let corners := List.filter (fun c => (emptyIndices squares).contains c) [0, 2, 6, 8]
          if corners.length ≠ 0 then some (corners.getD (rc % corners.length) 0)
          else
            let sides := List.filter (fun s => (emptyIndices squares).contains s) [1, 3, 5, 7]
            if sides.length ≠ 0 then some (sides.getD (rs % sides.length) 0)
            else none) ≠ none
        simp only []
        by_cases hcl :
            (List.filter (fun c => (emptyIndices squares).contains c) [0, 2, 6, 8]).length ≠ 0
        · rw [if_pos hcl, if_pos hcl]
          exact ⟨rfl, by simp⟩
        · rw [if_neg hcl, if_neg hcl]
          by_cases hsl :
              (List.filter (fun s => (emptyIndices squares).contains s) [1, 3, 5, 7]).length ≠ 0
          · rw [if_pos hsl, if_pos hsl]
            exact ⟨rfl, by simp⟩
          · exfalso
            rcases tiers_cover squares hlen hne with h4 | hc | hs
            · exact hc4 h4
            · exact hcl hc
            · exact hsl hs

/-- Witness for C10 at the spec's example board. -/
theorem computeAIMove_fallback_unreachable_witness :
    (List.length exampleBoard = 9 ∧ emptyIndices exampleBoard ≠ []) ∧
    (computeAIMove exampleBoard Mark.O Mark.X 3 4 =
        computeAIMoveNoFallback exampleBoard Mark.O Mark.X 3 4 ∧
      computeAIMoveNoFallback exampleBoard Mark.O Mark.X 3 4 ≠ none) :=
  ⟨⟨by decide, by decide⟩,
    computeAIMove_fallback_unreachable exampleBoard Mark.O Mark.X 3 4 (by decide) (by decide)⟩

/-- A list of non-zero length has a member. -/
lemma exists_mem_of_length_ne_zero {α : Type} {l : List α} (h : l.length ≠ 0) :
    ∃ a, a ∈ l := by
  apply List.exists_mem_of_ne_nil
  intro hnil
  rw [hnil] at h
  simp at h

/-- C3: with at least one empty cell and neither a winning nor a blocking
cell available, `computeAIMove` takes the center if empty, else some empty
corner if one exists, else some empty edge if one exists, else the first
empty cell in index order. -/
theorem computeAIMove_center_corner_side (squares : Board) (ai hu : Mark) (rc rs : Nat)
    (hlen : List.length squares = 9) (hne : emptyIndices squares ≠ [])
    (hnowin : ∀ i ∈ emptyIndices squares,
      (calculateWinner (List.set squares i (some ai))).winner ≠ some ai)
    (hnoblock : ∀ i ∈ emptyIndices squares,
      (calculateWinner (List.set squares i (some hu))).winner ≠ some hu) :
    (cell squares 4 = none → computeAIMove squares ai hu rc rs = some 4) ∧
    (cell squares 4 ≠ none →
      (∃ c ∈ ([0, 2, 6, 8] : List Nat), cell squares c = none) →
      ∃ j ∈ ([0, 2, 6, 8] : List Nat), cell squares j = none ∧
        computeAIMove squares ai hu rc rs = some j) ∧
    (cell squares 4 ≠ none →
      (∀ c ∈ ([0, 2, 6, 8] : List Nat), cell squares c ≠ none) →
      (∃ e ∈ ([1, 3, 5, 7] : List Nat), cell squares e = none) →
      ∃ j ∈ ([1, 3, 5, 7] : List Nat), cell squares j = none ∧
        computeAIMove squares ai hu rc rs = some j) ∧
    (cell squares 4 ≠ none →
      (∀ c ∈ ([0, 2, 6, 8] : List Nat), cell squares c ≠ none) →
      (∀ e ∈ ([1, 3, 5, 7] : List Nat), cell squares e ≠ none) →
      computeAIMove squares ai hu rc rs = some ((emptyIndices squares).getD 0 0)) := by
  have he : ¬ (emptyIndices squares).isEmpty := by
    simpa [List.isEmpty_iff] using hne
  have hf1 : (emptyIndices squares).find? (fun idx => tryMove squares idx ai) = none := by
    rw [List.find?_eq_none]
    intro i hi
    simp only [tryMove, decide_eq_true_eq]
    exact hnowin i hi
  have hf2 : (emptyIndices squares).find? (fun idx => tryMove squares idx hu) = none := by
    rw [List.find?_eq_none]
    intro i hi
    simp only [tryMove, decide_eq_true_eq]
    exact hnoblock i hi
  have hred : computeAIMove squares ai hu rc rs =
      (if (emptyIndices squares).contains 4 then some 4
       else
         if (List.filter (fun c => (emptyIndices squares).contains c) [0, 2, 6, 8]).length ≠ 0
         then
           some ((List.filter (fun c => (emptyIndices squares).contains c) [0, 2, 6, 8]).getD
             (rc % (List.filter (fun c => (emptyIndices squares).contains c) [0, 2, 6, 8]).length) 0)
         else
           if (List.filter (fun s => (emptyIndices squares).contains s) [1, 3, 5, 7]).length ≠ 0
           then
             some ((List.filter (fun s => (emptyIndices squares).contains s) [1, 3, 5, 7]).getD
               (rs % (List.filter (fun s => (emptyIndices squares).contains s) [1, 3, 5, 7]).length)
               0)
           else some ((emptyIndices squares).getD 0 0)) := by
    unfold computeAIMove
    rw [if_neg he, hf1, hf2]
  refine ⟨?_, ?_, ?_, ?_⟩
  · intro hc
    have h4m : (4 : Nat) ∈ emptyIndices squares :=
      (mem_emptyIndices squares 4).2 ⟨by omega, hc⟩
    have hc4 : (emptyIndices squares).contains 4 = true := by simpa using h4m
    rw [hred, if_pos hc4]
  · intro h4 hex
    rcases hex with ⟨c, hcmem, hcnone⟩
    have hnot4 : (4 : Nat) ∉ emptyIndices squares := by
      intro hmem
      exact h4 ((mem_emptyIndices squares 4).1 hmem).2
    have hc4 : ¬ (emptyIndices squares).contains 4 = true := by simpa using hnot4
    have hc9 : c < 9 := by
      have h := hcmem
      simp at h
      omega
    have hcavail : c ∈ emptyIndices squares :=
      (mem_emptyIndices squares c).2 ⟨by omega, hcnone⟩
    have hcfilter : c ∈ List.filter (fun c => (emptyIndices squares).contains c) [0, 2, 6, 8] :=
      List.mem_filter.mpr ⟨hcmem, by simpa using hcavail⟩
    have hcl : (List.filter (fun c => (emptyIndices squares).contains c) [0, 2, 6, 8]).length ≠ 0 :=
      length_ne_zero_of_mem hcfilter
    have hjfilter := getD_mod_mem _ hcl rc
    have hj := List.mem_filter.mp hjfilter
    refine ⟨_, hj.1, ?_, ?_⟩
    · have : (List.filter (fun c => (emptyIndices squares).contains c) [0, 2, 6, 8]).getD
          (rc % (List.filter (fun c => (emptyIndices squares).contains c) [0, 2, 6, 8]).length) 0 ∈
          emptyIndices squares := by
        have := hj.2
        simpa using this
      exact ((mem_emptyIndices squares _).1 this).2
    · rw [hred, if_neg hc4, if_pos hcl]
  · intro h4 hcor hex
    rcases hex with ⟨e, hemem, henone⟩
    have hnot4 : (4 : Nat) ∉ emptyIndices squares := by
      intro hmem
      exact h4 ((mem_emptyIndices squares 4).1 hmem).2
    have hc4 : ¬ (emptyIndices squares).contains 4 = true := by simpa using hnot4
    have hcl : (List.filter (fun c => (emptyIndices squares).contains c) [0, 2, 6, 8]).length = 0 := by
      rw [List.length_eq_zero, List.filter_eq_nil_iff]
      intro c hcmem
      simp only [Bool.not_eq_true]
      have : c ∉ emptyIndices squares := by
        intro hmem
        exact hcor c hcmem ((mem_emptyIndices squares c).1 hmem).2
      simpa using this
    have he9 : e < 9 := by
      have h := hemem
      simp at h
      omega
    have heavail : e ∈ emptyIndices squares :=
      (mem_emptyIndices squares e).2 ⟨by omega, henone⟩
    have hefilter : e ∈ List.filter (fun s => (emptyIndices squares).contains s) [1, 3, 5, 7] :=
      List.mem_filter.mpr ⟨hemem, by simpa using heavail⟩
    have hsl : (List.filter (fun s => (emptyIndices squares).contains s) [1, 3, 5, 7]).length ≠ 0 :=
      length_ne_zero_of_mem hefilter
    have hjfilter := getD_mod_mem _ hsl rs
    have hj := List.mem_filter.mp hjfilter
    refine ⟨_, hj.1, ?_, ?_⟩
    · have : (List.filter (fun s => (emptyIndices squares).contains s) [1, 3, 5, 7]).getD
          (rs % (List.filter (fun s => (emptyIndices squares).contains s) [1, 3, 5, 7]).length) 0 ∈
          emptyIndices squares := by
        have := hj.2
        simpa using this
      exact ((mem_emptyIndices squares _).1 this).2
    · rw [hred, if_neg hc4, if_neg (by simpa using hcl), if_pos hsl]
  · intro h4 hcor hsid
    exfalso
    obtain ⟨i, hi⟩ := List.exists_mem_of_ne_nil _ hne
    have hi9 : i < 9 := by
      have := ((mem_emptyIndices squares i).1 hi).1
      omega
    have hinone : cell squares i = none := ((mem_emptyIndices squares i).1 hi).2
    have hsplit : i = 4 ∨ (i = 0 ∨ i = 2 ∨ i = 6 ∨ i = 8) ∨
        (i = 1 ∨ i = 3 ∨ i = 5 ∨ i = 7) := by omega
    rcases hsplit with rfl | hc | hs
    · exact h4 hinone
    · refine hcor i ?_ hinone
      rcases hc with rfl | rfl | rfl | rfl <;> simp
    · refine hsid i ?_ hinone
      rcases hs with rfl | rfl | rfl | rfl <;> simp

/-- Witness for C3 at the board with a lone X in cell 0: the advisor takes
the empty center. -/
theorem computeAIMove_center_corner_side_witness :
    (List.length openingBoard = 9 ∧ emptyIndices openingBoard ≠ [] ∧
      (∀ i ∈ emptyIndices openingBoard,
        (calculateWinner (List.set openingBoard i (some Mark.O))).winner ≠ some Mark.O) ∧
      (∀ i ∈ emptyIndices openingBoard,
        (calculateWinner (List.set openingBoard i (some Mark.X))).winner ≠ some Mark.X)) ∧
    ((cell openingBoard 4 = none → computeAIMove openingBoard Mark.O Mark.X 5 6 = some 4) ∧
     (cell openingBoard 4 ≠ none →
       (∃ c ∈ ([0, 2, 6, 8] : List Nat), cell openingBoard c = none) →
       ∃ j ∈ ([0, 2, 6, 8] : List Nat), cell openingBoard j = none ∧
         computeAIMove openingBoard Mark.O Mark.X 5 6 = some j) ∧
     (cell openingBoard 4 ≠ none →
       (∀ c ∈ ([0, 2, 6, 8] : List Nat), cell openingBoard c ≠ none) →
       (∃ e ∈ ([1, 3, 5, 7] : List Nat), cell openingBoard e = none) →
       ∃ j ∈ ([1, 3, 5, 7] : List Nat), cell openingBoard j = none ∧
         computeAIMove openingBoard Mark.O Mark.X 5 6 = some j) ∧
     (cell openingBoard 4 ≠ none →
       (∀ c ∈ ([0, 2, 6, 8] : List Nat), cell openingBoard c ≠ none) →
       (∀ e ∈ ([1, 3, 5, 7] : List Nat), cell openingBoard e ≠ none) →
       computeAIMove openingBoard Mark.O Mark.X 5 6 =
         some ((emptyIndices openingBoard).getD 0 0))) :=
  ⟨⟨by decide, by decide, by decide, by decide⟩,
    computeAIMove_center_corner_side openingBoard Mark.O Mark.X 5 6 (by decide) (by decide)
      (by decide) (by decide)⟩

/-- Facts packed into an accepted click: active round, no winner yet, a free
target cell, and not the AI's turn. -/
lemma clickAccepted_props (s : Session) (i : Nat) (h : clickAccepted s i = true) :
    s.gameActive = true ∧ (calculateWinner s.board).winner = none ∧
      cell s.board i = none ∧ ¬(s.mode = Mode.HUMAN_AI ∧ s.xIsNext = false) := by
  unfold clickAccepted canPlay at h
  simp only [Bool.and_eq_true, Bool.not_eq_true', Bool.and_eq_false_iff,
    decide_eq_true_eq, decide_eq_false_iff_not, Bool.not_eq_true] at h
  rcases h with ⟨⟨⟨hg, hw⟩, hc⟩, hrest⟩
  refine ⟨hg, hw, hc, ?_⟩
  rintro ⟨hm, hx⟩
  rcases hrest with hdm | hnx
  · exact hdm hm
  · rw [hx] at hnx
    simp at hnx

/-- C6: a click is a silent no-op — the whole session is returned
unchanged — when the round is over, or the target cell is occupied, or it
is the advisor's turn in human-vs-ai mode. -/
theorem placeMark_rejected_noop (s : Session) (i : Nat)
    (h : s.gameActive = false ∨ cell s.board i ≠ none ∨
      (s.mode = Mode.HUMAN_AI ∧ s.xIsNext = false)) :
    placeMark s i = s ∧ handleClick s i = s := by
  have hrej : clickAccepted s i = false := by
    by_contra hne
    have hacc : clickAccepted s i = true := by
      cases hx : clickAccepted s i with
      | true => rfl
      | false => exact absurd hx hne
    rcases clickAccepted_props s i hacc with ⟨hg, _, hc, hnai⟩
    rcases h with h1 | h2 | h3
    · rw [hg] at h1
      simp at h1
    · exact h2 hc
    · exact hnai h3
  unfold placeMark handleClick
  rw [hrej]
  simp

/-- Witness for C6: clicking the occupied cell 0 of the near-draw session
changes nothing. -/
theorem placeMark_rejected_noop_witness :
    (preDrawSession.gameActive = false ∨ cell preDrawSession.board 0 ≠ none ∨
      (preDrawSession.mode = Mode.HUMAN_AI ∧ preDrawSession.xIsNext = false)) ∧
    (placeMark preDrawSession 0 = preDrawSession ∧
      handleClick preDrawSession 0 = preDrawSession) :=
  ⟨Or.inr (Or.inl (by decide)),
    placeMark_rejected_noop preDrawSession 0 (Or.inr (Or.inl (by decide)))⟩

/-- C8: restarting the round clears the board, hands the move to X,
re-activates the round, and leaves all three score counters (and the mode)
untouched. -/
theorem restartGame_soft_reset (s : Session) :
    (restartGame false s).board = List.replicate 9 (none : Option Mark) ∧
    (∀ i, cell (restartGame false s).board i = none) ∧
    (restartGame false s).xIsNext = true ∧
    (restartGame false s).gameActive = true ∧
    (restartGame false s).scores.X = s.scores.X ∧
    (restartGame false s).scores.O = s.scores.O ∧
    (restartGame false s).scores.draws = s.scores.draws ∧
    (restartGame false s).mode = s.mode := by
  unfold restartGame
  refine ⟨rfl, ?_, rfl, rfl, rfl, rfl, rfl, rfl⟩
  intro i
  unfold cell
  rcases Nat.lt_or_ge i 9 with hi | hi
  · rw [List.getD_eq_getElem _ _ (by simpa using hi)]
    interval_cases i <;> rfl
  · rw [List.getD_eq_default]
    simpa using hi

/-- Setting an in-range cell makes that cell hold the written mark. -/
lemma cell_set_self (b : Board) (i : Nat) (v : Option Mark) (hi : i < List.length b) :
    cell (List.set b i v) i = v := by
  unfold cell
  have hlen : i < (List.set b i v).length := by simpa using hi
  rw [List.getD_eq_getElem _ _ hlen]
  simp [List.getElem_set_self]

/-- C5: an accepted placement writes the active mark into the chosen cell
and flips the turn; the following evaluation then either credits the
winning mark with exactly one point and ends the round with a winner
status, or credits one draw and ends the round with the draw status, or
keeps the round active announcing the new active mark's turn. -/
theorem placeMark_accepted_transition (s : Session) (i : Nat)
    (hlen : List.length s.board = 9) (hi : i < 9) (hacc : clickAccepted s i = true) :
    (placeMark s i).board = List.set s.board i (some (currentPlayer s)) ∧
    cell (placeMark s i).board i = some (currentPlayer s) ∧
    (placeMark s i).xIsNext = !s.xIsNext ∧
    (placeMark s i).mode = s.mode ∧
    (∀ w, (calculateWinner (List.set s.board i (some (currentPlayer s)))).winner = some w →
      scoreOf (placeMark s i).scores w = scoreOf s.scores w + 1 ∧
      (∀ m, m ≠ w → scoreOf (placeMark s i).scores m = scoreOf s.scores m) ∧
      (placeMark s i).scores.draws = s.scores.draws ∧
      (placeMark s i).gameActive = false ∧
      (placeMark s i).statusMessage = "Winner: " ++ markStr w) ∧
    ((calculateWinner (List.set s.board i (some (currentPlayer s)))).winner = none →
      emptyIndices (List.set s.board i (some (currentPlayer s))) = [] →
      (placeMark s i).scores.draws = s.scores.draws + 1 ∧
      (placeMark s i).scores.X = s.scores.X ∧
      (placeMark s i).scores.O = s.scores.O ∧
      (placeMark s i).gameActive = false ∧
      (placeMark s i).statusMessage = "Draw!") ∧
    ((calculateWinner (List.set s.board i (some (currentPlayer s)))).winner = none →
      emptyIndices (List.set s.board i (some (currentPlayer s))) ≠ [] →
      (placeMark s i).scores = s.scores ∧
      (placeMark s i).gameActive = true ∧
      (placeMark s i).statusMessage =
        "Turn: " ++ markStr (if s.xIsNext then Mark.O else Mark.X)) := by
  rcases clickAccepted_props s i hacc with ⟨hg, hw, hc, hnai⟩
  have hclick : handleClick s i =
      { s with board := List.set s.board i (some (currentPlayer s)), xIsNext := !s.xIsNext } := by
    unfold handleClick
    rw [if_pos hacc]
  have hplace : placeMark s i = statusEffect
      { s with board := List.set s.board i (some (currentPlayer s)), xIsNext := !s.xIsNext } := by
    unfold placeMark
    rw [if_pos hacc, hclick]
  set b' := List.set s.board i (some (currentPlayer s)) with hb'
  cases hw' : (calculateWinner b').winner with
  | some w =>
    have heff : placeMark s i =
        { s with board := b', xIsNext := !s.xIsNext,
                 statusMessage := "Winner: " ++ markStr w, gameActive := false,
                 scores := addWin s.scores w } := by
      rw [hplace]
      unfold statusEffect
      simp only [hw']
    rw [heff]
    refine ⟨rfl, cell_set_self s.board i _ (by omega), rfl, rfl, ?_, ?_, ?_⟩
    · intro w' hww'
      injection hww' with hww
      subst hww
      cases w <;>
        refine ⟨rfl, ?_, rfl, rfl, rfl⟩ <;>
        · intro m hm
          cases m <;> first | rfl | exact absurd rfl hm
    · intro hnone _
      simp at hnone
    · intro hnone _
      simp at hnone
  | none =>
    by_cases hfull : emptyIndices b' = []
    · have heff : placeMark s i =
          { s with board := b', xIsNext := !s.xIsNext,
                   statusMessage := "Draw!", gameActive := false,
                   scores := { s.scores with draws := s.scores.draws + 1 } } := by
        rw [hplace]
        unfold statusEffect
        simp only [hw', hfull, List.length_nil]
        simp
      rw [heff]
      refine ⟨rfl, cell_set_self s.board i _ (by omega), rfl, rfl, ?_, ?_, ?_⟩
      · intro w' hww'
        exact absurd hww' (by simp)
      · intro _ _
        exact ⟨rfl, rfl, rfl, rfl, rfl⟩
      · intro _ hne
        exact absurd hfull hne
    · have hlen0 : ¬ (emptyIndices b').length = 0 := by
        intro h0
        exact hfull (List.length_eq_zero.mp h0)
      have heff : placeMark s i =
          { s with board := b', xIsNext := !s.xIsNext,
                   statusMessage :=
                     "Turn: " ++ markStr (if !s.xIsNext then Mark.X else Mark.O) } := by
        rw [hplace]
        unfold statusEffect
        simp only [hw', if_neg hlen0]
        rfl
      rw [heff]
      refine ⟨rfl, cell_set_self s.board i _ (by omega), rfl, rfl, ?_, ?_, ?_⟩
      · intro w' hww'
        exact absurd hww' (by simp)
      · intro _ hfull'
        exact absurd hfull' hfull
      · intro _ _
        refine ⟨rfl, hg, ?_⟩
        cases hx : s.xIsNext <;> simp [hx]

/-- Witness for C5: completing the near-draw board declares a draw, bumps
the draw counter by one and deactivates the round. -/
theorem placeMark_accepted_transition_witness :
    (List.length preDrawSession.board = 9 ∧ 8 < 9 ∧ clickAccepted preDrawSession 8 = true) ∧
    ((placeMark preDrawSession 8).board =
        List.set preDrawSession.board 8 (some (currentPlayer preDrawSession)) ∧
      cell (placeMark preDrawSession 8).board 8 = some (currentPlayer preDrawSession) ∧
      (placeMark preDrawSession 8).xIsNext = !preDrawSession.xIsNext ∧
      (placeMark preDrawSession 8).mode = preDrawSession.mode ∧
      (∀ w, (calculateWinner (List.set preDrawSession.board 8
            (some (currentPlayer preDrawSession)))).winner = some w →
        scoreOf (placeMark preDrawSession 8).scores w = scoreOf preDrawSession.scores w + 1 ∧
        (∀ m, m ≠ w →
          scoreOf (placeMark preDrawSession 8).scores m = scoreOf preDrawSession.scores m) ∧
        (placeMark preDrawSession 8).scores.draws = preDrawSession.scores.draws ∧
        (placeMark preDrawSession 8).gameActive = false ∧
        (placeMark preDrawSession 8).statusMessage = "Winner: " ++ markStr w) ∧
      ((calculateWinner (List.set preDrawSession.board 8
            (some (currentPlayer preDrawSession)))).winner = none →
        emptyIndices (List.set preDrawSession.board 8
          (some (currentPlayer preDrawSession))) = [] →
        (placeMark preDrawSession 8).scores.draws = preDrawSession.scores.draws + 1 ∧
        (placeMark preDrawSession 8).scores.X = preDrawSession.scores.X ∧
        (placeMark preDrawSession 8).scores.O = preDrawSession.scores.O ∧
        (placeMark preDrawSession 8).gameActive = false ∧
        (placeMark preDrawSession 8).statusMessage = "Draw!") ∧
      ((calculateWinner (List.set preDrawSession.board 8
            (some (currentPlayer preDrawSession)))).winner = none →
        emptyIndices (List.set preDrawSession.board 8
          (some (currentPlayer preDrawSession))) ≠ [] →
        (placeMark preDrawSession 8).scores = preDrawSession.scores ∧
        (placeMark preDrawSession 8).gameActive = true ∧
        (placeMark preDrawSession 8).statusMessage =
          "Turn: " ++ markStr (if preDrawSession.xIsNext then Mark.O else Mark.X))) :=
  ⟨⟨by decide, by decide, by decide⟩,
    placeMark_accepted_transition preDrawSession 8 (by decide) (by decide) (by decide)⟩

/-- The status effect never touches the board. -/
lemma statusEffect_board (s : Session) : (statusEffect s).board = s.board := by
  unfold statusEffect
  cases hw : (calculateWinner s.board).winner with
  | some w => rfl
  | none =>
    by_cases h0 : (emptyIndices s.board).length = 0
    · rw [if_pos h0]
    · rw [if_neg h0]

/-- Running the status effect on an active-round session re-establishes the
round invariant, whatever the board looks like. -/
lemma statusEffect_inv (s : Session) (hg : s.gameActive = true) :
    roundInvariant (statusEffect s) := by
  unfold roundInvariant statusEffect
  cases hw : (calculateWinner s.board).winner with
  | some w => simp [hw]
  | none =>
    by_cases h0 : (emptyIndices s.board).length = 0
    · simp [h0, List.length_eq_zero.mp h0]
    · have hne : emptyIndices s.board ≠ [] := by
        intro hnil
        rw [hnil] at h0
        exact h0 rfl
      simp [h0, hg, hne, hw]

/-- Both restart flavours re-establish the round invariant: the fresh board
has no winner and plenty of empty cells. -/
lemma restartGame_inv (hard : Bool) (s : Session) :
    roundInvariant (restartGame hard s) := by
  have h1 : (calculateWinner (List.replicate 9 (none : Option Mark))).winner = none := by
    decide
  have h2 : emptyIndices (List.replicate 9 (none : Option Mark)) ≠ [] := by decide
  unfold roundInvariant restartGame
  cases hard <;> simp <;> exact ⟨by decide, by decide⟩

/-- A click, accepted or rejected, preserves the round invariant. -/
lemma placeMark_inv (s : Session) (i : Nat) (h : roundInvariant s) :
    roundInvariant (placeMark s i) := by
  unfold placeMark
  by_cases hacc : clickAccepted s i = true
  · rw [if_pos hacc]
    rcases clickAccepted_props s i hacc with ⟨hg, _, _, _⟩
    apply statusEffect_inv
    unfold handleClick
    rw [if_pos hacc]
    exact hg
  · rw [if_neg hacc]
    exact h

/-- The AI timer callback preserves the round invariant. -/
lemma aiStep_inv (s : Session) (rc rs : Nat) (h : roundInvariant s) :
    roundInvariant (aiStep s rc rs) := by
  unfold aiStep
  by_cases h1 : (!s.gameActive || decide ((calculateWinner s.board).winner ≠ none)) = true
  · rw [if_pos h1]
    exact h
  · rw [if_neg h1]
    have hg : s.gameActive = true := by
      cases hgb : s.gameActive with
      | true => rfl
      | false => exact absurd (by simp [hgb]) h1
    by_cases h2 : (decide (s.mode = Mode.HUMAN_AI) && !s.xIsNext) = true
    · rw [if_pos h2]
      cases hm : computeAIMove s.board aiMark Mark.X rc rs with
      | some idx =>
        show roundInvariant (if cell s.board idx = none then
          statusEffect { s with board := List.set s.board idx (some aiMark), xIsNext := true }
          else s)
        by_cases h3 : cell s.board idx = none
        · rw [if_pos h3]
          exact statusEffect_inv _ hg
        · rw [if_neg h3]
          exact h
      | none => exact h
    · rw [if_neg h2]
      exact h

/-- C7: in every reachable controller state, the round-active flag is off
exactly when the board has a winning line or no empty cell remains. -/
theorem reachable_round_inactive_iff (st : AIState) (h : ReachableA st) :
    st.session.gameActive = false ↔
      ((calculateWinner st.session.board).winner ≠ none ∨
        ∀ i, i < List.length st.session.board → cell st.session.board i ≠ none) := by
  have hinv : roundInvariant st.session := by
    induction h with
    | init =>
      unfold roundInvariant
      decide
    | place st' i _ ih => exact placeMark_inv st'.session i ih
    | fire st' rc rs _ ih =>
      by_cases hp : st'.pending = true
      · have hfe : fireTimer st' rc rs =
            withEffect { st' with pending := false } (aiStep st'.session rc rs) := by
          unfold fireTimer
          rw [if_pos hp]
        rw [hfe]
        exact aiStep_inv st'.session rc rs ih
      · have hfe : fireTimer st' rc rs = st' := by
          unfold fireTimer
          rw [if_neg hp]
        rw [hfe]
        exact ih
    | restart st' hard _ _ => exact restartGame_inv hard st'.session
    | modeChange st' m _ _ => exact restartGame_inv false _
  unfold roundInvariant at hinv
  rw [emptyIndices_eq_nil_iff] at hinv
  exact hinv

/-- Witness for C7 at the initial application state. -/
theorem reachable_round_inactive_iff_witness :
    ReachableA initAIState ∧
    (initAIState.session.gameActive = false ↔
      ((calculateWinner initAIState.session.board).winner ≠ none ∨
        ∀ i, i < List.length initAIState.session.board →
          cell initAIState.session.board i ≠ none)) :=
  ⟨ReachableA.init, reachable_round_inactive_iff initAIState ReachableA.init⟩

/-- The AI effect's scheduling guard only depends on its dependency tuple. -/
lemma shouldSchedule_congr {a b : Session} (h : effectDeps a = effectDeps b) :
    shouldSchedule a = shouldSchedule b := by
  have h1 : a.mode = b.mode := congrArg (fun p => p.1) h
  have h2 : a.xIsNext = b.xIsNext := congrArg (fun p => p.2.1) h
  have h3 : a.board = b.board := congrArg (fun p => p.2.2.1) h
  have h4 : a.gameActive = b.gameActive := congrArg (fun p => p.2.2.2) h
  unfold shouldSchedule
  rw [h1, h2, h3, h4]

/-- Effect bookkeeping keeps timers honest: if an armed timer could only
exist under the scheduling guard before a state change, the same holds
after it. -/
lemma effectUpdate_sound (old : Session) (p : Bool) (new : Session)
    (hold : p = true → shouldSchedule old = true) :
    effectUpdate old p new = true → shouldSchedule new = true := by
  unfold effectUpdate
  by_cases hd : effectDeps new = effectDeps old
  · rw [if_pos hd]
    intro hp
    rw [shouldSchedule_congr hd]
    exact hold hp
  · rw [if_neg hd]
    exact id

/-- In every reachable controller state, an armed AI timer implies the
scheduling guard holds right now (active round, no winner, human-vs-ai
mode, O's turn). -/
lemma pending_shouldSchedule (st : AIState) (h : ReachableA st) :
    st.pending = true → shouldSchedule st.session = true := by
  induction h with
  | init => exact fun hx => hx
  | place st' i _ ih =>
    exact effectUpdate_sound st'.session st'.pending (placeMark st'.session i) ih
  | fire st' rc rs _ ih =>
    by_cases hp : st'.pending = true
    · have hfe : fireTimer st' rc rs =
          withEffect { st' with pending := false } (aiStep st'.session rc rs) := by
        unfold fireTimer
        rw [if_pos hp]
      rw [hfe]
      exact effectUpdate_sound st'.session false (aiStep st'.session rc rs)
        (by intro hx; simp at hx)
    · have hfe : fireTimer st' rc rs = st' := by
        unfold fireTimer
        rw [if_neg hp]
      rw [hfe]
      exact ih
  | restart st' hard _ ih =>
    exact effectUpdate_sound st'.session st'.pending (restartGame hard st'.session) ih
  | modeChange st' m _ ih =>
    exact effectUpdate_sound st'.session st'.pending (handleModeChange m st'.session) ih

/-- C9: if a round reset (restart round, new game, or mode change) happens
while an advisor move is pending in its presentation delay, the pending
timer is cancelled — the post-reset state has no armed timer, and firing on
it changes nothing, so the pending move is never applied to the cleared
board. -/
theorem reset_cancels_pending_ai_move (st : AIState) (h : ReachableA st)
    (hp : st.pending = true) :
    (∀ hard, (stepRestart hard st).pending = false ∧
      ∀ rc rs, fireTimer (stepRestart hard st) rc rs = stepRestart hard st) ∧
    (∀ m, (stepModeChange m st).pending = false ∧
      ∀ rc rs, fireTimer (stepModeChange m st) rc rs = stepModeChange m st) := by
  have hs := pending_shouldSchedule st h hp
  have hx : st.session.xIsNext = false := by
    unfold shouldSchedule at hs
    simp only [Bool.and_eq_true, Bool.not_eq_true'] at hs
    exact hs.2.2
  have hkey : ∀ (new : Session), new.xIsNext = true →
      effectUpdate st.session st.pending new = false := by
    intro new hxn
    have hne : ¬ (effectDeps new = effectDeps st.session) := by
      intro heq
      have hsame : new.xIsNext = st.session.xIsNext := congrArg (fun p => p.2.1) heq
      rw [hxn, hx] at hsame
      simp at hsame
    unfold effectUpdate
    rw [if_neg hne]
    unfold shouldSchedule
    rw [hxn]
    simp
  have hrx : ∀ hard, (restartGame hard st.session).xIsNext = true := by
    intro hard
    unfold restartGame
    cases hard <;> rfl
  have hmx : ∀ m, (handleModeChange m st.session).xIsNext = true := by
    intro m
    unfold handleModeChange restartGame
    rfl
  constructor
  · intro hard
    have hpend : (stepRestart hard st).pending = false := hkey _ (hrx hard)
    refine ⟨hpend, ?_⟩
    intro rc rs
    unfold fireTimer
    rw [hpend]
    simp
  · intro m
    have hpend : (stepModeChange m st).pending = false := hkey _ (hmx m)
    refine ⟨hpend, ?_⟩
    intro rc rs
    unfold fireTimer
    rw [hpend]
    simp

/-- Witness for C9: after switching to human-vs-ai and X playing cell 0, an
advisor timer is armed; both reset flavours cancel it. -/
theorem reset_cancels_pending_ai_move_witness :
    (ReachableA (stepPlace 0 (stepModeChange Mode.HUMAN_AI initAIState)) ∧
      (stepPlace 0 (stepModeChange Mode.HUMAN_AI initAIState)).pending = true) ∧
    ((∀ hard, (stepRestart hard (stepPlace 0 (stepModeChange Mode.HUMAN_AI
          initAIState))).pending = false ∧
        ∀ rc rs, fireTimer (stepRestart hard (stepPlace 0 (stepModeChange Mode.HUMAN_AI
            initAIState))) rc rs =
          stepRestart hard (stepPlace 0 (stepModeChange Mode.HUMAN_AI initAIState))) ∧
      (∀ m, (stepModeChange m (stepPlace 0 (stepModeChange Mode.HUMAN_AI
          initAIState))).pending = false ∧
        ∀ rc rs, fireTimer (stepModeChange m (stepPlace 0 (stepModeChange Mode.HUMAN_AI
            initAIState))) rc rs =
          stepModeChange m (stepPlace 0 (stepModeChange Mode.HUMAN_AI initAIState)))) :=
  ⟨⟨ReachableA.place _ 0 (ReachableA.modeChange _ Mode.HUMAN_AI ReachableA.init), by decide⟩,
    reset_cancels_pending_ai_move (stepPlace 0 (stepModeChange Mode.HUMAN_AI initAIState))
      (ReachableA.place _ 0 (ReachableA.modeChange _ Mode.HUMAN_AI ReachableA.init))
      (by decide)⟩
